import Mathlib

/-!
Verification of the memory subsystem of the minecraft-ai-companion
repository (`src/ai_memory.py`, class `AIMemorySystem`).

The Python code is shallowly embedded: the JSON memory record becomes a
Lean structure, each method becomes a pure function from the old record
(plus explicit inputs such as the current timestamp and the collaborator
outcome) to the new record and return value.  Python dictionaries with
insertion order are modelled as association lists; Python list slicing
`xs[-n:]` is modelled by `pyLastSlice`, including its `n = 0` corner case
where the slice is the whole list.
-/

namespace AIMemory

/-- A parsed JSON value, as produced by Python's `json.loads`. Numbers are
modelled as integers (the claims under study never depend on floats). -/
inductive JValue where
  | null : JValue
  | bool : Bool → JValue
  | num : Int → JValue
  | str : String → JValue
  | list : List JValue → JValue
  | obj : List (String × JValue) → JValue

/-- Minimal JSON string escaping, modelling `json.dumps` on strings. -/
def jescape (s : String) : String :=
  s.foldl (fun acc c =>
    if c = '\\' then acc ++ "\\\\"
    else if c = '"' then acc ++ "\\\""
    else acc ++ String.singleton c) ""

mutual
/-- Serialization of a JSON value, modelling Python's `json.dumps` with its
default separators; used by `coerceItem` for non-string insight items. -/
def jdumps : JValue → String
  | .null => "null"
  | .bool true => "true"
  | .bool false => "false"
  | .num n => toString n
  | .str s => "\"" ++ jescape s ++ "\""
  | .list xs => "[" ++ jdumpsList xs ++ "]"
  | .obj kvs => "\x7b" ++ jdumpsObj kvs ++ "\x7d"

def jdumpsList : List JValue → String
  | [] => ""
  | [x] => jdumps x
  | x :: xs => jdumps x ++ ", " ++ jdumpsList xs

def jdumpsObj : List (String × JValue) → String
  | [] => ""
  | [kv] => "\"" ++ jescape kv.1 ++ "\": " ++ jdumps kv.2
  | kv :: kvs => "\"" ++ jescape kv.1 ++ "\": " ++ jdumps kv.2 ++ ", " ++ jdumpsObj kvs
end

/-- `ai_memory.py` lines 292-297: an insight item that is not already a
string is coerced with `json.dumps` (the `str(item)` fallback is
unreachable for values `json.loads` can produce, since `json.dumps`
succeeds on every such value). -/
def coerceItem : JValue → String
  | .str s => s
  | v => jdumps v

/-- `ai_memory.py` lines 274-279: the fixed table from model-facing keys to
long-term categories. -/
def key_map : String → Option String
  | "preferences" => some "player_preferences"
  | "projects" => some "building_projects"
  | "personality" => some "personality_notes"
  | "achievements" => some "achievements"
  | _ => none

/-- The `long_term` region: a Python dict (insertion-ordered) from category
name to list of fact strings, modelled as an association list. -/
abbrev LongTerm := List (String × List String)

/-- Whether a category key is present (`k_mem in dict`). -/
def ltHas (lt : LongTerm) (k : String) : Bool :=
  lt.any (fun p => p.1 = k)

/-- `dict.setdefault(k, [])`: insert `(k, [])` at the end iff absent. -/
def ltSetdefault (lt : LongTerm) (k : String) : LongTerm :=
  if ltHas lt k then lt else lt ++ [(k, [])]

/-- Update the value stored at key `k` in place. -/
def ltModify (lt : LongTerm) (k : String) (f : List String → List String) : LongTerm :=
  lt.map (fun p => if p.1 = k then (p.1, f p.2) else p)

/-- `ai_memory.py` lines 289-301 for a single mapped list: walk the items,
coerce each to a string, and append it iff it is not already present.  The
Python code keeps a running `set` `existing` initialized from the current
list and extended on each append, so membership in `existing` always
coincides with membership in the accumulated list `acc`. -/
def mergeList (cur : List String) (items : List JValue) : List String :=
  items.foldl (fun acc it =>
    let s := coerceItem it
    if s ∈ acc then acc else acc ++ [s]) cur

/-- `ai_memory.py` lines 282-301, one iteration of the merge loop: skip
unmapped keys and non-list values; otherwise `setdefault` the category and
merge the items into it. -/
def processEntry (lt : LongTerm) (k : String) (v : JValue) : LongTerm :=
  match key_map k with
  | none => lt
  | some km =>
    match v with
    | JValue.list items => ltModify (ltSetdefault lt km) km (fun cur => mergeList cur items)
    | _ => lt

/-- The whole merge pass of `consolidate_memories_with_ai` over the parsed
insight object's entries (`ai_insights.items()`, in insertion order). -/
def applyInsights (lt : LongTerm) (ins : List (String × JValue)) : LongTerm :=
  ins.foldl (fun acc p => processEntry acc p.1 p.2) lt

/-- An entry of `short_term` (`ai_memory.py` lines 90-95). -/
structure Event where
  timestamp : String
  type : String
  data : String
  player : String
deriving DecidableEq, Repr

/-- An entry of `conversation_history` (`ai_memory.py` lines 117-122). -/
structure Response where
  timestamp : String
  response : String
  context : String
  player : String
deriving DecidableEq, Repr

/-- The `stats` sub-record (`ai_memory.py` lines 61-65). -/
structure Stats where
  total_events : Nat
  consolidations_run : Nat
  created_at : String
deriving DecidableEq, Repr

/-- The persisted memory record (`ai_memory.py` lines 51-66). -/
structure Memory where
  short_term : List Event
  long_term : LongTerm
  conversation_history : List Response
  last_consolidation : Option String
  stats : Stats
deriving DecidableEq, Repr

/-- The four initial long-term categories (`ai_memory.py` lines 53-58). -/
def defaultLongTerm : LongTerm :=
  [("player_preferences", []), ("building_projects", []),
   ("personality_notes", []), ("achievements", [])]

/-- The default record created when no valid file exists
(`ai_memory.py` lines 50-66); `now` stands for `datetime.now().isoformat()`. -/
def defaultMemory (now : String) : Memory :=
  { short_term := []
    long_term := defaultLongTerm
    conversation_history := []
    last_consolidation := none
    stats := { total_events := 0, consolidations_run := 0, created_at := now } }

/-- The state of the backing file as seen by `load_memory`: absent, present
but not decodable as UTF-8 text, present and decodable but not valid JSON,
or a valid record. -/
inductive FileState where
  | absent : FileState
  | nonUtf8 : FileState
  | malformed : FileState
  | valid : Memory → FileState
deriving DecidableEq, Repr

/-- `ai_memory.py` lines 41-66 (`load_memory`).  The `except` clause catches
only `json.JSONDecodeError` and `FileNotFoundError`; a file that exists but
is not UTF-8-decodable makes `json.load` raise `UnicodeDecodeError`, which
is NOT in that tuple and therefore propagates to the caller, modelled here
as `Except.error`. -/
def load_memory (fs : FileState) (now : String) : Except Unit Memory :=
  match fs with
  | .absent => .ok (defaultMemory now)
  | .malformed => .ok (defaultMemory now)
  | .nonUtf8 => .error ()
  | .valid rec => .ok rec

/-- Python `xs[-count:]` for a non-negative `count`: the last `count`
elements, except that `count = 0` yields the WHOLE list (`xs[-0:]` is
`xs[0:]`). -/
def pyLastSlice (l : List α) (count : Nat) : List α :=
  if count = 0 then l else l.drop (l.length - count)

/-- `ai_memory.py` lines 78-106 (`add_event`): build the event, append it to
`short_term`, bump `total_events`, truncate `short_term` to its last 50
entries when it exceeds 50, return the new record and the created event. -/
def add_event (mem : Memory) (event_type : String) (event_data : String)
    (player : String) (now : String) : Memory × Event :=
  let event : Event :=
    { timestamp := now, type := event_type, data := event_data, player := player }
  let st := mem.short_term ++ [event]
  let st := if 50 < st.length then pyLastSlice st 50 else st
  ({ mem with
      short_term := st
      stats := { mem.stats with total_events := mem.stats.total_events + 1 } },
   event)

/-- `ai_memory.py` lines 108-130 (`add_ai_response`): append to
`conversation_history`, truncate to the last 20 entries. -/
def add_ai_response (mem : Memory) (response : String) (context : String)
    (player : String) (now : String) : Memory :=
  let entry : Response :=
    { timestamp := now, response := response, context := context, player := player }
  let ch := mem.conversation_history ++ [entry]
  let ch := if 20 < ch.length then pyLastSlice ch 20 else ch
  { mem with conversation_history := ch }

/-- `ai_memory.py` lines 132-148 (`get_recent_events`).  The filter is
guarded by Python truthiness `if player:`, so it is skipped both for `None`
and for the empty string. -/
def get_recent_events (mem : Memory) (count : Nat) (player : Option String) :
    List Event :=
  let events :=
    match player with
    | some p => if p = "" then mem.short_term
                else mem.short_term.filter (fun e => e.player = p)
    | none => mem.short_term
  pyLastSlice events count

/-- `ai_memory.py` lines 150-164 (`get_relevant_long_term_facts`): extend a
flat list with each category's items in stored order, then slice to the
first `max_facts`. -/
def get_relevant_long_term_facts (mem : Memory) (max_facts : Nat) : List String :=
  (mem.long_term.foldl (fun facts p => facts ++ p.2) []).take max_facts

/-- `ai_memory.py` lines 179-184: the recent-events block of
`build_ai_context` (empty when the selection is empty). -/
def eventsSection (mem : Memory) (player : String) (recent_count : Nat) :
    List String :=
  let recent_events := get_recent_events mem recent_count (some player)
  if recent_events.isEmpty then []
  else "Recent events:" :: recent_events.map (fun e => "- " ++ e.type ++ ": " ++ e.data)

/-- `ai_memory.py` lines 186-191: the long-term-facts block of
`build_ai_context` (note the `max_facts` default of 10). -/
def factsSection (mem : Memory) (player : String) : List String :=
  let long_term_facts := get_relevant_long_term_facts mem 10
  if long_term_facts.isEmpty then []
  else ("\nWhat I know about " ++ player ++ ":") :: long_term_facts.map (fun f => "- " ++ f)

/-- `ai_memory.py` lines 193-199: the recent-conversation block of
`build_ai_context`: the last 5 history entries overall, then filtered by
player; each line shows the first 60 characters of the response. -/
def convSection (mem : Memory) (player : String) : List String :=
  let recent_responses :=
    (pyLastSlice mem.conversation_history 5).filter (fun r => r.player = player)
  if recent_responses.isEmpty then []
  else "\nRecent conversation:" ::
    recent_responses.map (fun r => "- I said: " ++ r.response.take 60 ++ "...")

/-- `ai_memory.py` lines 166-201 (`build_ai_context`): the three blocks are
appended to `context_parts` in order and joined with newlines. -/
def build_ai_context (mem : Memory) (player : String) (recent_count : Nat) : String :=
  String.intercalate "\n"
    (eventsSection mem player recent_count ++ factsSection mem player ++
      convSection mem player)

/-- `ai_memory.py` lines 203-214 (`should_consolidate`). -/
def should_consolidate (mem : Memory) (event_interval : Nat) : Bool :=
  let total_events := mem.stats.total_events
  decide (0 < total_events) && decide (total_events % event_interval = 0)

/-- The backtick character used by markdown code fences. -/
def backtick : Char := Char.ofNat 96

/-- `ai_memory.py` lines 261-269 (`_coerce_json`): trim, strip a markdown
code fence and an optional leading `json` language tag, then parse.  The
parser itself is Python's `json.loads`, library code outside this
repository, so it is passed in as `loads` (returning `none` where
`json.loads` would raise `JSONDecodeError`). -/
def coerce_json (loads : String → Option JValue) (s : String) : Option JValue :=
  let s := s.trim
  let s :=
    if s.startsWith "```" then
      let s := (s.dropWhile (fun c => c = backtick)).dropRightWhile (fun c => c = backtick)
      if s.toLower.startsWith "json" then
        if s.contains '\n' then String.intercalate "\n" (s.splitOn "\n").tail else ""
      else s
    else s
  loads s

/-- The outcome of the chat-completion collaborator inside
`consolidate_memories_with_ai`: no client configured, the API call raised,
or the call returned a text completion. -/
inductive CollabResult where
  | noClient : CollabResult
  | raises : CollabResult
  | returns : String → CollabResult

/-- `ai_memory.py` lines 216-311 (`consolidate_memories_with_ai`), with the
collaborator outcome and the current timestamp passed in explicitly.
Returns the Python boolean result together with the record after the call.
Failure paths in the source (no client at line 220, no recent events at
line 225, an exception from the API call, raw text that fails to parse, or
a parse result that is not a JSON object so that `.items()` raises) all
happen before any mutation of the record, and the `except` at line 309
turns them into `return False`. -/
def consolidate (loads : String → Option JValue) (mem : Memory)
    (collab : CollabResult) (event_count : Nat) (now : String) : Bool × Memory :=
  match collab with
  | .noClient => (false, mem)
  | .raises =>
    if (get_recent_events mem event_count none).isEmpty then (false, mem)
    else (false, mem)
  | .returns raw =>
    if (get_recent_events mem event_count none).isEmpty then (false, mem)
    else
      match coerce_json loads raw with
      | none => (false, mem)
      | some (JValue.obj ins) =>
        (true,
         { mem with
            long_term := applyInsights mem.long_term ins
            last_consolidation := some now
            stats := { mem.stats with
                        consolidations_run := mem.stats.consolidations_run + 1 } })
      | some _ => (false, mem)

/-- One `add_event` call's inputs (arguments plus the timestamp the clock
produces during the call). -/
structure EventInput where
  event_type : String
  event_data : String
  player : String
  now : String
deriving DecidableEq, Repr

/-- The event record `add_event` creates from one call's inputs
(`ai_memory.py` lines 90-95). -/
def mkEvent (i : EventInput) : Event :=
  { timestamp := i.now, type := i.event_type, data := i.event_data, player := i.player }

/-- Run a sequence of `add_event` calls, threading the record. -/
def runAddEvents (mem : Memory) (inputs : List EventInput) : Memory :=
  inputs.foldl (fun m i => (add_event m i.event_type i.event_data i.player i.now).1) mem

/-- `ai_memory.py` lines 335-357 (`clear_memory`). -/
def clear_memory (mem : Memory) (keep_long_term : Bool) : Memory :=
  let mem := { mem with short_term := [], conversation_history := [] }
  let mem :=
    if keep_long_term then mem
    else { mem with
            long_term := defaultLongTerm
            last_consolidation := none
            stats := { mem.stats with consolidations_run := 0 } }
  { mem with stats := { mem.stats with total_events := 0 } }

/-- Whether a JSON value is a list (`isinstance(lst, list)`). -/
def isList : JValue → Bool
  | .list _ => true
  | _ => false

/-- Saturation of one insight entry in a long-term store: the target
category exists and every entry under that key already contains every
coerced item.  After a merge pass this holds for each processed entry, and
while it holds re-processing the entry changes nothing. -/
def entryDone (lt : LongTerm) (km : String) (items : List JValue) : Prop :=
  ltHas lt km = true ∧
  ∀ p ∈ lt, p.1 = km → ∀ it ∈ items, coerceItem it ∈ p.2

/-! ### Concrete records used to instantiate the theorems -/

/-- A store holding one event for player "A". -/
def oneEventMem : Memory :=
  { defaultMemory "t0" with
      short_term := [{ timestamp := "1", type := "mine", data := "stone", player := "A" }] }

/-- A store with three events for Alice and two for Bob, interleaved. -/
def aliceBobMem : Memory :=
  { defaultMemory "t0" with
      short_term :=
        [{ timestamp := "1", type := "mine", data := "stone", player := "Alice" },
         { timestamp := "2", type := "mine", data := "dirt", player := "Bob" },
         { timestamp := "3", type := "craft", data := "pick", player := "Alice" },
         { timestamp := "4", type := "craft", data := "sword", player := "Bob" },
         { timestamp := "5", type := "chat", data := "hi", player := "Alice" }] }

/-- A store whose conversation history holds one old response for "A"
followed by five newer responses for "B". -/
def oldResponseMem : Memory :=
  { defaultMemory "t0" with
      conversation_history :=
        [{ timestamp := "1", response := "hello A", context := "", player := "A" },
         { timestamp := "2", response := "b1", context := "", player := "B" },
         { timestamp := "3", response := "b2", context := "", player := "B" },
         { timestamp := "4", response := "b3", context := "", player := "B" },
         { timestamp := "5", response := "b4", context := "", player := "B" },
         { timestamp := "6", response := "b5", context := "", player := "B" }] }

/-- An insight object that repeats the same item within one list. -/
def dupInsights : List (String × JValue) :=
  [("preferences", JValue.list [JValue.str "likes sand", JValue.str "likes sand"]),
   ("mood", JValue.list [JValue.str "ignored"]),
   ("projects", JValue.str "not a list")]

/-- Two concrete `add_event` inputs. -/
def input1 : EventInput :=
  { event_type := "mine", event_data := "stone", player := "A", now := "1" }

/-- A second concrete `add_event` input. -/
def input2 : EventInput :=
  { event_type := "craft", event_data := "pick", player := "B", now := "2" }

/-! ### Claim theorems -/

/-- C4 counterexample: the claim says a non-UTF8 backing file yields a
fresh default record without raising, but `load_memory` only catches
`json.JSONDecodeError` and `FileNotFoundError`, so the `UnicodeDecodeError`
raised while decoding a non-UTF8 file propagates to the caller. -/
theorem load_memory_nonUtf8_raises :
    load_memory FileState.nonUtf8 "2024-01-01" = Except.error () := rfl

/-- C4 (amended): an absent backing file, or one that is UTF-8 text but
fails to parse as JSON, yields a fresh default record (all collections
empty, counters zero, `created_at` = now) without raising, and a file that
parses as a valid record is loaded as the record; a non-UTF8 file instead
raises. -/
theorem load_memory_recovery_spec (now : String) (rec : Memory) :
    load_memory FileState.absent now = Except.ok (defaultMemory now) ∧
    load_memory FileState.malformed now = Except.ok (defaultMemory now) ∧
    load_memory (FileState.valid rec) now = Except.ok rec ∧
    (defaultMemory now).short_term = [] ∧
    (defaultMemory now).conversation_history = [] ∧
    (defaultMemory now).long_term = defaultLongTerm ∧
    defaultLongTerm.all (fun p => p.2.isEmpty) = true ∧
    (defaultMemory now).last_consolidation = none ∧
    (defaultMemory now).stats.total_events = 0 ∧
    (defaultMemory now).stats.consolidations_run = 0 ∧
    (defaultMemory now).stats.created_at = now :=
  ⟨rfl, rfl, rfl, rfl, rfl, rfl, by decide, rfl, rfl, rfl, rfl⟩

/-- C8: `should_consolidate(interval)` is true iff `total_events` is a
positive multiple of `interval`; with the default interval 15 it is false
at 0..14, true at 15, false at 16..29, and true at 30.  (It is a pure
function of the record: the record is not an output of the operation.) -/
theorem should_consolidate_spec (mem : Memory) (interval : Nat)
    (hpos : 0 < interval) :
    (should_consolidate mem interval = true ↔
      0 < mem.stats.total_events ∧ mem.stats.total_events % interval = 0) ∧
    (mem.stats.total_events ≤ 14 → should_consolidate mem 15 = false) ∧
    (mem.stats.total_events = 15 → should_consolidate mem 15 = true) ∧
    (16 ≤ mem.stats.total_events → mem.stats.total_events ≤ 29 →
      should_consolidate mem 15 = false) ∧
    (mem.stats.total_events = 30 → should_consolidate mem 15 = true) := by
  have hiff : ∀ n : Nat, (should_consolidate mem n = true ↔
      0 < mem.stats.total_events ∧ mem.stats.total_events % n = 0) := by
    intro n
    simp [should_consolidate]
  refine ⟨hiff interval, ?_, ?_, ?_, ?_⟩
  · intro h
    rw [← Bool.not_eq_true]
    intro hc
    rcases (hiff 15).mp hc with ⟨h1, h2⟩
    omega
  · intro h
    exact (hiff 15).mpr (by omega)
  · intro h1 h2
    rw [← Bool.not_eq_true]
    intro hc
    rcases (hiff 15).mp hc with ⟨h3, h4⟩
    omega
  · intro h
    exact (hiff 15).mpr (by omega)

/-- C8 witness: the specification evaluated on the fresh store (where
`total_events = 0`, so the gate is false). -/
theorem should_consolidate_spec_witness :
    (should_consolidate (defaultMemory "t") 15 = true ↔
      0 < (defaultMemory "t").stats.total_events ∧
        (defaultMemory "t").stats.total_events % 15 = 0) ∧
    should_consolidate (defaultMemory "t") 15 = false :=
  ⟨(should_consolidate_spec (defaultMemory "t") 15 (by decide)).1,
   ((should_consolidate_spec (defaultMemory "t") 15 (by decide)).2.1 (by decide))⟩

/-- C9: `clear_memory` empties `short_term` and `conversation_history` and
zeroes `total_events` regardless of the flag; with `keep_long_term = true`
it leaves `long_term`, `consolidations_run` (and `last_consolidation`)
unchanged; with `keep_long_term = false` it additionally resets `long_term`
to the default empty categories, clears `last_consolidation`, and zeroes
`consolidations_run`. -/
theorem clear_memory_spec (mem : Memory) (b : Bool) :
    ((clear_memory mem b).short_term = [] ∧
      (clear_memory mem b).conversation_history = [] ∧
      (clear_memory mem b).stats.total_events = 0) ∧
    ((clear_memory mem true).long_term = mem.long_term ∧
      (clear_memory mem true).stats.consolidations_run =
        mem.stats.consolidations_run ∧
      (clear_memory mem true).last_consolidation = mem.last_consolidation) ∧
    ((clear_memory mem false).long_term = defaultLongTerm ∧
      (clear_memory mem false).last_consolidation = none ∧
      (clear_memory mem false).stats.consolidations_run = 0) := by
  cases b <;> simp [clear_memory]

/-- C10: with the empty-string player, `get_recent_events` skips the player
filter entirely (Python truthiness, not a comparison against `None`), so it
returns the most recent `count` events of all players combined, and the
recent-events section of `build_ai_context` for player `""` is built from
all players' events. -/
theorem empty_player_skips_filter (mem : Memory) (count : Nat) :
    get_recent_events mem count (some "") = get_recent_events mem count none ∧
    (1 ≤ count →
      get_recent_events mem count (some "") =
        mem.short_term.drop (mem.short_term.length - count)) ∧
    eventsSection mem "" count =
      (if (get_recent_events mem count none).isEmpty then []
       else "Recent events:" ::
         (get_recent_events mem count none).map
           (fun e => "- " ++ e.type ++ ": " ++ e.data)) := by
  refine ⟨rfl, ?_, rfl⟩
  intro hc
  show pyLastSlice (if "" = "" then mem.short_term
      else mem.short_term.filter (fun e => e.player = "")) count =
    mem.short_term.drop (mem.short_term.length - count)
  rw [if_pos rfl]
  unfold pyLastSlice
  rw [if_neg (by omega)]

/-- C10 witness: on a store holding one "A" event and one "B" event, the
query for player `""` returns both. -/
theorem empty_player_skips_filter_witness :
    get_recent_events aliceBobMem 2 (some "") = get_recent_events aliceBobMem 2 none ∧
    get_recent_events aliceBobMem 2 (some "") =
      aliceBobMem.short_term.drop (aliceBobMem.short_term.length - 2) ∧
    get_recent_events aliceBobMem 2 (some "") =
      [{ timestamp := "4", type := "craft", data := "sword", player := "Bob" },
       { timestamp := "5", type := "chat", data := "hi", player := "Alice" }] :=
  ⟨(empty_player_skips_filter aliceBobMem 2).1,
   (empty_player_skips_filter aliceBobMem 2).2.1 (by decide),
   by decide⟩

/-- The foldl in `get_relevant_long_term_facts` concatenates all category
lists, in stored order, onto its accumulator. -/
theorem foldl_extend_eq_flatten (l : LongTerm) (init : List String) :
    l.foldl (fun facts p => facts ++ p.2) init =
      init ++ (l.map Prod.snd).flatten := by
  induction l generalizing init with
  | nil => simp
  | cons a l ih => simp [ih, List.append_assoc]

/-- C7: the long-term-facts selection is the concatenation of all facts
across categories in stored category order and stored per-category order,
truncated to its first `max_facts` elements (10 in `build_ai_context`),
and the facts section prints each under a header naming the player,
omitted when the selection is empty. -/
theorem long_term_facts_section_spec (mem : Memory) (player : String) (n : Nat) :
    get_relevant_long_term_facts mem n =
      ((mem.long_term.map Prod.snd).flatten).take n ∧
    factsSection mem player =
      (if (get_relevant_long_term_facts mem 10).isEmpty then []
       else ("\nWhat I know about " ++ player ++ ":") ::
         (get_relevant_long_term_facts mem 10).map (fun f => "- " ++ f)) := by
  constructor
  · unfold get_relevant_long_term_facts
    rw [foldl_extend_eq_flatten, List.nil_append]
  · rfl

/-- C6: the recent-conversation section first takes the 5 most recent
conversation entries overall and only then filters by player, each line
showing the first 60 characters of the response; hence a player's earlier
responses are excluded whenever the 5 most recent entries all belong to
other interactions. -/
theorem conversation_section_spec (mem : Memory) (player : String)
    (sel : List Response)
    (hs : sel = (pyLastSlice mem.conversation_history 5).filter
            (fun r => r.player = player)) :
    convSection mem player =
      (if sel.isEmpty then []
       else "\nRecent conversation:" ::
         sel.map (fun r => "- I said: " ++ r.response.take 60 ++ "...")) ∧
    ((∀ r ∈ pyLastSlice mem.conversation_history 5, r.player ≠ player) →
      convSection mem player = []) := by
  subst hs
  refine ⟨rfl, ?_⟩
  intro hall
  have hnil : (pyLastSlice mem.conversation_history 5).filter
      (fun r => r.player = player) = [] := by
    rw [List.filter_eq_nil_iff]
    intro r hr
    simpa using hall r hr
  simp [convSection, hnil]

/-- C6 witness: a history holding an old "A" response followed by five "B"
responses; the section for "A" is empty even though "A" has a stored
response. -/
theorem conversation_section_spec_witness :
    convSection oldResponseMem "A" = [] ∧
    (oldResponseMem.conversation_history.filter
      (fun r => r.player = "A")).length = 1 :=
  ⟨(conversation_section_spec oldResponseMem "A" _ rfl).2 (by decide),
   by decide⟩

/-- C5 counterexample: the claim fails at two concrete inputs.  With player
`""` (empty string) the section is NOT restricted to events whose player
field equals `""`: `oneEventMem` has no event with player `""`, yet the
section shows its single "A" event.  With `recent_count = 0` the slice
`events[-0:]` is the whole list, so the section contains one event instead
of zero. -/
theorem recent_events_section_counterexample :
    oneEventMem.short_term.filter (fun e => e.player = "") = [] ∧
    eventsSection oneEventMem "" 5 = ["Recent events:", "- mine: stone"] ∧
    get_recent_events oneEventMem 0 (some "A") =
      [{ timestamp := "1", type := "mine", data := "stone", player := "A" }] ∧
    eventsSection oneEventMem "A" 0 = ["Recent events:", "- mine: stone"] := by
  refine ⟨by decide, by decide, by decide, by decide⟩

/-- C5 (amended): for every store state, every NONEMPTY player string, and
every recent_count ≥ 1, the recent-events section of `build_ai_context`
contains exactly the up-to-recent_count most recent events whose player
field equals the given player, in chronological order, each formatted as
"- \x7btype\x7d: \x7bdata\x7d" under a header line, and the section is
omitted when the selection is empty. -/
theorem recent_events_section_spec (mem : Memory) (player : String)
    (count : Nat) (filtered : List Event)
    (hp : player ≠ "") (hc : 1 ≤ count)
    (hf : filtered = mem.short_term.filter (fun e => e.player = player)) :
    get_recent_events mem count (some player) =
      filtered.drop (filtered.length - count) ∧
    List.IsSuffix (get_recent_events mem count (some player)) filtered ∧
    (get_recent_events mem count (some player)).length =
      min count filtered.length ∧
    (∀ e ∈ get_recent_events mem count (some player), e.player = player) ∧
    eventsSection mem player count =
      (if (get_recent_events mem count (some player)).isEmpty then []
       else "Recent events:" ::
         (get_recent_events mem count (some player)).map
           (fun e => "- " ++ e.type ++ ": " ++ e.data)) ∧
    build_ai_context mem player count =
      String.intercalate "\n"
        (eventsSection mem player count ++ factsSection mem player ++
          convSection mem player) := by
  have hge : get_recent_events mem count (some player) =
      filtered.drop (filtered.length - count) := by
    subst hf
    simp only [get_recent_events, pyLastSlice, if_neg hp]
    rw [if_neg (by omega)]
  refine ⟨hge, ?_, ?_, ?_, rfl, rfl⟩
  · rw [hge]
    exact List.drop_suffix _ _
  · rw [hge, List.length_drop]
    omega
  · intro e he
    rw [hge] at he
    have hmem : e ∈ filtered :=
      List.Sublist.mem he (List.IsSuffix.sublist (List.drop_suffix _ _))
    rw [hf] at hmem
    simpa using (List.mem_filter.mp hmem).2

/-- C5 witness: `aliceBobMem` holds three Alice events and two Bob events
interleaved; the section for "Alice" with `recent_count = 5` shows exactly
Alice's three events in chronological order. -/
theorem recent_events_section_spec_witness :
    get_recent_events aliceBobMem 5 (some "Alice") =
      (aliceBobMem.short_term.filter (fun e => e.player = "Alice")).drop
        ((aliceBobMem.short_term.filter (fun e => e.player = "Alice")).length - 5) ∧
    get_recent_events aliceBobMem 5 (some "Alice") =
      [{ timestamp := "1", type := "mine", data := "stone", player := "Alice" },
       { timestamp := "3", type := "craft", data := "pick", player := "Alice" },
       { timestamp := "5", type := "chat", data := "hi", player := "Alice" }] ∧
    eventsSection aliceBobMem "Alice" 5 =
      ["Recent events:", "- mine: stone", "- craft: pick", "- chat: hi"] ∧
    build_ai_context aliceBobMem "Alice" 5 =
      "Recent events:\n- mine: stone\n- craft: pick\n- chat: hi" :=
  ⟨(recent_events_section_spec aliceBobMem "Alice" 5 _ (by decide) (by decide) rfl).1,
   by decide, by decide, by decide⟩

/-- One `add_event` step turns a short-term log that is the ≤50-suffix of
the events created so far into the ≤50-suffix of the extended creation
list. -/
theorem suffix_append_step {α : Type} (evs : List α) (e : α) :
    (evs.drop (evs.length - 50) ++ [e]).drop
        ((evs.drop (evs.length - 50) ++ [e]).length - 50) =
      (evs ++ [e]).drop ((evs ++ [e]).length - 50) := by
  rw [List.drop_append_of_le_length
      (by simp only [List.length_append, List.length_singleton,
            List.length_drop]; omega),
    List.drop_append_of_le_length
      (by simp only [List.length_append, List.length_singleton]; omega),
    List.drop_drop]
  have harith : (evs.length - 50) +
      ((evs.drop (evs.length - 50) ++ [e]).length - 50) =
        (evs ++ [e]).length - 50 := by
    simp only [List.length_append, List.length_singleton, List.length_drop]
    omega
  rw [harith]

/-- One `add_event` step turns a short-term log that is the 50-suffix of
the events created so far into the 50-suffix of the extended creation
list. -/
theorem add_event_short_term_step (mem : Memory) (i : EventInput)
    (evs : List Event)
    (hst : mem.short_term = evs.drop (evs.length - 50)) :
    (add_event mem i.event_type i.event_data i.player i.now).1.short_term =
      (evs ++ [mkEvent i]).drop ((evs ++ [mkEvent i]).length - 50) := by
  show (if 50 < (mem.short_term ++ [mkEvent i]).length then
      pyLastSlice (mem.short_term ++ [mkEvent i]) 50
    else mem.short_term ++ [mkEvent i]) =
      (evs ++ [mkEvent i]).drop ((evs ++ [mkEvent i]).length - 50)
  rw [hst]
  by_cases hbig : 50 ≤ evs.length
  · rw [if_pos (by simp only [List.length_append, List.length_singleton,
        List.length_drop]; omega)]
    unfold pyLastSlice
    rw [if_neg (by omega)]
    exact suffix_append_step evs (mkEvent i)
  · rw [if_neg (by simp only [List.length_append, List.length_singleton,
        List.length_drop]; omega)]
    have h0 : evs.length - 50 = 0 := by omega
    have h0' : (evs ++ [mkEvent i]).length - 50 = 0 := by
      simp only [List.length_append, List.length_singleton]
      omega
    rw [h0, List.drop_zero, h0', List.drop_zero]

/-- Running `add_event` calls keeps `short_term` equal to the ≤50-suffix of
all events created so far and `total_events` equal to their number. -/
theorem runAddEvents_invariant (inputs : List EventInput) (mem : Memory)
    (evs : List Event)
    (hst : mem.short_term = evs.drop (evs.length - 50))
    (htot : mem.stats.total_events = evs.length) :
    (runAddEvents mem inputs).short_term =
      (evs ++ inputs.map mkEvent).drop
        ((evs ++ inputs.map mkEvent).length - 50) ∧
    (runAddEvents mem inputs).stats.total_events =
      evs.length + inputs.length := by
  induction inputs generalizing mem evs with
  | nil =>
    simp only [runAddEvents, List.foldl_nil, List.map_nil, List.append_nil,
      List.length_nil, Nat.add_zero]
    exact ⟨hst, htot⟩
  | cons i rest ih =>
    have hstep :
        runAddEvents mem (i :: rest) =
          runAddEvents (add_event mem i.event_type i.event_data i.player i.now).1
            rest := rfl
    rw [hstep]
    have hst' := add_event_short_term_step mem i evs hst
    have htot' :
        (add_event mem i.event_type i.event_data i.player i.now).1.stats.total_events =
          (evs ++ [mkEvent i]).length := by
      show mem.stats.total_events + 1 = (evs ++ [mkEvent i]).length
      rw [htot, List.length_append, List.length_singleton]
    have := ih (add_event mem i.event_type i.event_data i.player i.now).1
      (evs ++ [mkEvent i]) hst' htot'
    rcases this with ⟨h1, h2⟩
    constructor
    · rw [h1, List.append_assoc]
      rfl
    · rw [h2, List.length_append, List.length_singleton, List.length_cons]
      omega

/-- C3: starting from a fresh (or freshly reset) store — empty `short_term`
and zero `total_events` — after any prefix of a sequence of `add_event`
calls, `short_term` has length ≤ 50 and equals the most recent
min(N, 50) created events in call order, `stats.total_events` equals the
number of calls made even beyond 50, and each call returns exactly the
event it created. -/
theorem add_event_sequence_spec (mem : Memory)
    (hst : mem.short_term = []) (htot : mem.stats.total_events = 0)
    (inputs : List EventInput) (k : Nat) :
    (runAddEvents mem (inputs.take k)).short_term.length ≤ 50 ∧
    (runAddEvents mem (inputs.take k)).short_term =
      ((inputs.take k).map mkEvent).drop
        (((inputs.take k).map mkEvent).length - 50) ∧
    (runAddEvents mem (inputs.take k)).stats.total_events =
      (inputs.take k).length ∧
    (∀ (m : Memory) (i : EventInput),
      (add_event m i.event_type i.event_data i.player i.now).2 = mkEvent i) := by
  have hbase := runAddEvents_invariant (inputs.take k) mem []
    (by simpa using hst) (by simpa using htot)
  rcases hbase with ⟨h1, h2⟩
  rw [List.nil_append] at h1
  refine ⟨?_, h1, ?_, fun m i => rfl⟩
  · rw [h1, List.length_drop]
    omega
  · rw [h2]
    simp

/-- C3 witness: two calls on the fresh store; both events are retained in
order, the counter reads 2, and each call returned its event. -/
theorem add_event_sequence_spec_witness :
    (runAddEvents (defaultMemory "t") [input1, input2]).short_term.length ≤ 50 ∧
    (runAddEvents (defaultMemory "t") [input1, input2]).short_term =
      [mkEvent input1, mkEvent input2] ∧
    (runAddEvents (defaultMemory "t") [input1, input2]).stats.total_events = 2 ∧
    (add_event (defaultMemory "t") input1.event_type input1.event_data
      input1.player input1.now).2 = mkEvent input1 := by
  have h := add_event_sequence_spec (defaultMemory "t") rfl rfl
    [input1, input2] 2
  exact ⟨h.1, by decide, h.2.2.1, h.2.2.2 (defaultMemory "t") input1⟩

/-- C2: every failure path of `consolidate_memories_with_ai` — missing
collaborator, no short-term events to gather, a raising collaborator call,
or returned text that fails to parse as JSON — reports `False` and returns
the record completely unchanged (in particular `long_term`,
`last_consolidation`, and `consolidations_run`); no partial merge is
applied and no exception escapes (the embedding is a total function). -/
theorem consolidate_failure_unchanged (loads : String → Option JValue)
    (mem : Memory) (collab : CollabResult) (event_count : Nat) (now : String)
    (hfail : collab = CollabResult.noClient ∨
      (get_recent_events mem event_count none).isEmpty = true ∨
      collab = CollabResult.raises ∨
      (∃ raw, collab = CollabResult.returns raw ∧
        coerce_json loads raw = none)) :
    consolidate loads mem collab event_count now = (false, mem) ∧
    (consolidate loads mem collab event_count now).2.long_term =
      mem.long_term ∧
    (consolidate loads mem collab event_count now).2.last_consolidation =
      mem.last_consolidation ∧
    (consolidate loads mem collab event_count now).2.stats.consolidations_run =
      mem.stats.consolidations_run := by
  have hmain : consolidate loads mem collab event_count now = (false, mem) := by
    rcases hfail with h | h | h | ⟨raw, hret, hparse⟩
    · rw [h]; rfl
    · cases collab with
      | noClient => rfl
      | raises => simp [consolidate, h]
      | returns raw => simp [consolidate, h]
    · rw [h]
      show (if (get_recent_events mem event_count none).isEmpty then
          ((false : Bool), mem) else (false, mem)) = (false, mem)
      split <;> rfl
    · rw [hret]
      show (if (get_recent_events mem event_count none).isEmpty then
          ((false : Bool), mem)
        else match coerce_json loads raw with
          | none => ((false : Bool), mem)
          | some (JValue.obj ins) =>
            (true,
             { mem with
                long_term := applyInsights mem.long_term ins
                last_consolidation := some now
                stats := { mem.stats with
                            consolidations_run :=
                              mem.stats.consolidations_run + 1 } })
          | some _ => ((false : Bool), mem)) = (false, mem)
      rw [hparse]
      split <;> rfl
  exact ⟨hmain, by rw [hmain], by rw [hmain], by rw [hmain]⟩

/-- C2 witness: a store with one event, a collaborator that returns text no
parser accepts; the call reports failure and the record is unchanged. -/
theorem consolidate_failure_unchanged_witness :
    consolidate (fun _ => none) oneEventMem (CollabResult.returns "junk") 15 "t9" =
      (false, oneEventMem) ∧
    (consolidate (fun _ => none) oneEventMem (CollabResult.returns "junk") 15 "t9").2.long_term =
      oneEventMem.long_term :=
  ⟨(consolidate_failure_unchanged (fun _ => none) oneEventMem
      (CollabResult.returns "junk") 15 "t9"
      (Or.inr (Or.inr (Or.inr ⟨"junk", rfl, rfl⟩)))).1,
   (consolidate_failure_unchanged (fun _ => none) oneEventMem
      (CollabResult.returns "junk") 15 "t9"
      (Or.inr (Or.inr (Or.inr ⟨"junk", rfl, rfl⟩)))).2.1⟩

/-! ### Merge-pass lemmas for the consolidation algorithm -/

/-- Unfolding of one `mergeList` step. -/
theorem mergeList_cons (cur : List String) (it : JValue) (rest : List JValue) :
    mergeList cur (it :: rest) =
      mergeList (if coerceItem it ∈ cur then cur else cur ++ [coerceItem it])
        rest := rfl

/-- `mergeList` never removes anything from the accumulated list. -/
theorem mem_mergeList_of_mem (cur : List String) (items : List JValue)
    (s : String) (h : s ∈ cur) : s ∈ mergeList cur items := by
  induction items generalizing cur with
  | nil => exact h
  | cons it rest ih =>
    rw [mergeList_cons]
    apply ih
    split
    · exact h
    · exact List.mem_append_left _ h

/-- After merging, every coerced item of the input list is present. -/
theorem coerceItem_mem_mergeList (cur : List String) (items : List JValue)
    (it : JValue) (h : it ∈ items) : coerceItem it ∈ mergeList cur items := by
  induction items generalizing cur with
  | nil => cases h
  | cons a rest ih =>
    rw [mergeList_cons]
    rcases List.mem_cons.mp h with rfl | hmem
    · apply mem_mergeList_of_mem
      split
      · assumption
      · exact List.mem_append_right _ (List.mem_singleton_self _)
    · exact ih _ hmem

/-- Merging items whose coercions are all already present is a no-op. -/
theorem mergeList_eq_self (cur : List String) :
    ∀ items : List JValue, (∀ it ∈ items, coerceItem it ∈ cur) →
      mergeList cur items = cur := by
  intro items
  induction items with
  | nil => intro _; rfl
  | cons a rest ih =>
    intro h
    rw [mergeList_cons, if_pos (h a (List.mem_cons_self a rest))]
    exact ih (fun it hit => h it (List.mem_cons_of_mem a hit))

/-- The running-set check keeps the category list duplicate-free. -/
theorem mergeList_nodup (cur : List String) (items : List JValue)
    (h : cur.Nodup) : (mergeList cur items).Nodup := by
  induction items generalizing cur with
  | nil => exact h
  | cons a rest ih =>
    rw [mergeList_cons]
    apply ih
    split
    · exact h
    · rw [← List.concat_eq_append]
      exact List.Nodup.concat (by assumption) h

/-- `setdefault` makes its key present. -/
theorem ltHas_setdefault_self (lt : LongTerm) (k : String) :
    ltHas (ltSetdefault lt k) k = true := by
  unfold ltSetdefault
  split
  · assumption
  · simp [ltHas]

/-- `setdefault` keeps every present key present. -/
theorem ltHas_setdefault_mono (lt : LongTerm) (k k' : String)
    (h : ltHas lt k' = true) : ltHas (ltSetdefault lt k) k' = true := by
  unfold ltSetdefault
  split
  · exact h
  · unfold ltHas at h ⊢
    rw [List.any_append, h, Bool.true_or]

/-- `ltModify` rewrites values but never keys. -/
theorem ltHas_modify (lt : LongTerm) (k k' : String)
    (f : List String → List String) :
    ltHas (ltModify lt k f) k' = ltHas lt k' := by
  unfold ltHas ltModify
  rw [List.any_map]
  congr 1
  funext p
  by_cases hp : p.1 = k <;> simp [hp]

/-- Every member of `ltModify lt k f` comes from a member of `lt`. -/
theorem mem_ltModify (lt : LongTerm) (k : String)
    (f : List String → List String) (p : String × List String)
    (h : p ∈ ltModify lt k f) :
    ∃ q ∈ lt, p = if q.1 = k then (q.1, f q.2) else q := by
  unfold ltModify at h
  rcases List.mem_map.mp h with ⟨q, hq, hEq⟩
  exact ⟨q, hq, hEq.symm⟩

/-- `ltModify` with a pointwise-fixed function is the identity. -/
theorem ltModify_eq_self (k : String) (f : List String → List String) :
    ∀ lt : LongTerm, (∀ q ∈ lt, q.1 = k → f q.2 = q.2) →
      ltModify lt k f = lt := by
  intro lt
  induction lt with
  | nil => intro _; rfl
  | cons a rest ih =>
    intro h
    have hrest : ltModify rest k f = rest :=
      ih (fun q hq => h q (List.mem_cons_of_mem a hq))
    unfold ltModify at hrest ⊢
    rw [List.map_cons, hrest]
    congr 1
    by_cases ha : a.1 = k
    · rw [if_pos ha, h a (List.mem_cons_self a rest) ha]
    · rw [if_neg ha]

/-- Processing a mapped list entry saturates it: the category exists and
every entry under it contains every coerced item. -/
theorem processEntry_establishes (lt : LongTerm) (k : String)
    (items : List JValue) (km : String) (hk : key_map k = some km) :
    entryDone (processEntry lt k (JValue.list items)) km items := by
  unfold processEntry
  rw [hk]
  constructor
  · rw [ltHas_modify]
    exact ltHas_setdefault_self lt km
  · intro p hp hpk it hit
    rcases mem_ltModify _ _ _ p hp with ⟨q, hq, hEq⟩
    by_cases hqk : q.1 = km
    · rw [if_pos hqk] at hEq
      subst hEq
      exact coerceItem_mem_mergeList q.2 items it hit
    · rw [if_neg hqk] at hEq
      subst hEq
      exact absurd hpk hqk

/-- Saturation of an entry survives the processing of any further entry:
later steps only append to category lists and add fresh empty categories. -/
theorem processEntry_preserves (lt : LongTerm) (k' : String) (v' : JValue)
    (km : String) (items : List JValue) (h : entryDone lt km items) :
    entryDone (processEntry lt k' v') km items := by
  unfold processEntry
  cases hkm' : key_map k' with
  | none => exact h
  | some km' =>
    cases v' with
    | list items' =>
      rcases h with ⟨hhas, hmem⟩
      constructor
      · rw [ltHas_modify]
        exact ltHas_setdefault_mono lt km' km hhas
      · intro p hp hpk it hit
        rcases mem_ltModify _ _ _ p hp with ⟨q, hq, hEq⟩
        have hq' : q ∈ lt ∨
            (q = (km', ([] : List String)) ∧ ¬ltHas lt km' = true) := by
          unfold ltSetdefault at hq
          split at hq
          · exact Or.inl hq
          · rename_i hneg
            rcases List.mem_append.mp hq with h1 | h1
            · exact Or.inl h1
            · exact Or.inr ⟨List.mem_singleton.mp h1, hneg⟩
        rcases hq' with hqlt | ⟨rfl, hneg⟩
        · by_cases hqk : q.1 = km'
          · rw [if_pos hqk] at hEq
            subst hEq
            exact mem_mergeList_of_mem q.2 items' _ (hmem q hqlt hpk it hit)
          · rw [if_neg hqk] at hEq
            subst hEq
            exact hmem _ hqlt hpk it hit
        · rw [if_pos rfl] at hEq
          subst hEq
          have hk2 : km' = km := hpk
          rw [← hk2] at hhas
          exact absurd hhas hneg
    | null => exact h
    | bool b => exact h
    | num n => exact h
    | str s => exact h
    | obj o => exact h

/-- Saturation of an entry survives a whole merge pass. -/
theorem applyInsights_preserves (ins : List (String × JValue)) (lt : LongTerm)
    (km : String) (items : List JValue) (h : entryDone lt km items) :
    entryDone (applyInsights lt ins) km items := by
  induction ins generalizing lt with
  | nil => exact h
  | cons e rest ih =>
    exact ih _ (processEntry_preserves lt e.1 e.2 km items h)

/-- After a full merge pass, every mapped list entry of the insight object
is saturated. -/
theorem applyInsights_saturates (ins : List (String × JValue)) (lt : LongTerm) :
    ∀ kv ∈ ins, ∀ km items, key_map kv.1 = some km →
      kv.2 = JValue.list items → entryDone (applyInsights lt ins) km items := by
  induction ins generalizing lt with
  | nil =>
    intro kv h
    cases h
  | cons e rest ih =>
    intro kv hkv km items hk hv
    rcases List.mem_cons.mp hkv with rfl | hmem
    · have h1 : entryDone (processEntry lt kv.1 kv.2) km items := by
        rw [hv]
        exact processEntry_establishes lt kv.1 items km hk
      exact applyInsights_preserves rest _ km items h1
    · exact ih (processEntry lt e.1 e.2) kv hmem km items hk hv

/-- A merge pass in which every mapped list entry is already saturated
changes nothing. -/
theorem applyInsights_eq_self (ins : List (String × JValue)) :
    ∀ lt : LongTerm,
      (∀ kv ∈ ins, ∀ km items, key_map kv.1 = some km →
        kv.2 = JValue.list items → entryDone lt km items) →
      applyInsights lt ins = lt := by
  induction ins with
  | nil => intro lt _; rfl
  | cons e rest ih =>
    intro lt h
    have hstep : processEntry lt e.1 e.2 = lt := by
      unfold processEntry
      cases hk : key_map e.1 with
      | none => rfl
      | some km =>
        cases hv : e.2 with
        | list items =>
          rcases h e (List.mem_cons_self e rest) km items hk hv with ⟨hhas, hmem⟩
          show ltModify (ltSetdefault lt km) km (fun cur => mergeList cur items) = lt
          unfold ltSetdefault
          rw [if_pos hhas]
          exact ltModify_eq_self km _ lt (fun q hq hqk =>
            mergeList_eq_self q.2 items (fun it hit => hmem q hq hqk it hit))
        | null => rfl
        | bool b => rfl
        | num n => rfl
        | str s => rfl
        | obj o => rfl
    show applyInsights (processEntry lt e.1 e.2) rest = lt
    rw [hstep]
    exact ih lt (fun kv hkv => h kv (List.mem_cons_of_mem e hkv))

/-- One merge step keeps every category list duplicate-free. -/
theorem processEntry_nodup (lt : LongTerm) (k : String) (v : JValue)
    (h : ∀ p ∈ lt, p.2.Nodup) : ∀ p ∈ processEntry lt k v, p.2.Nodup := by
  unfold processEntry
  cases key_map k with
  | none => exact h
  | some km =>
    cases v with
    | list items =>
      intro p hp
      rcases mem_ltModify _ _ _ p hp with ⟨q, hq, hEq⟩
      have hq2 : q.2.Nodup := by
        unfold ltSetdefault at hq
        split at hq
        · exact h q hq
        · rcases List.mem_append.mp hq with h1 | h1
          · exact h q h1
          · rw [List.mem_singleton.mp h1]
            exact List.nodup_nil
      by_cases hqk : q.1 = km
      · rw [if_pos hqk] at hEq
        subst hEq
        exact mergeList_nodup q.2 items hq2
      · rw [if_neg hqk] at hEq
        subst hEq
        exact hq2
    | null => exact h
    | bool b => exact h
    | num n => exact h
    | str s => exact h
    | obj o => exact h

/-- A whole merge pass keeps every category list duplicate-free. -/
theorem applyInsights_nodup (ins : List (String × JValue)) (lt : LongTerm)
    (h : ∀ p ∈ lt, p.2.Nodup) : ∀ p ∈ applyInsights lt ins, p.2.Nodup := by
  induction ins generalizing lt with
  | nil => exact h
  | cons e rest ih => exact ih _ (processEntry_nodup lt e.1 e.2 h)

/-- C1: the consolidation merge appends each (coerced) item only if absent,
checking a running set that includes items added earlier in the same pass,
so on a record whose categories are duplicate-free every category stays
duplicate-free (one stored copy even when the model repeats an insight
within one response); re-applying the same parsed insights is a no-op
(idempotence across two consolidations); and unrecognized keys or non-list
values are skipped without error. -/
theorem consolidate_merge_dedup_idempotent (lt : LongTerm)
    (ins : List (String × JValue)) (hnd : ∀ p ∈ lt, p.2.Nodup) :
    (∀ p ∈ applyInsights lt ins, p.2.Nodup) ∧
    applyInsights (applyInsights lt ins) ins = applyInsights lt ins ∧
    (∀ k v, key_map k = none → processEntry lt k v = lt) ∧
    (∀ k v, isList v = false → processEntry lt k v = lt) := by
  refine ⟨applyInsights_nodup ins lt hnd, ?_, ?_, ?_⟩
  · exact applyInsights_eq_self ins (applyInsights lt ins)
      (fun kv hkv km items hk hv =>
        applyInsights_saturates ins lt kv hkv km items hk hv)
  · intro k v hk
    unfold processEntry
    rw [hk]
  · intro k v hv
    unfold processEntry
    cases hk : key_map k with
    | none => rfl
    | some km =>
      cases v with
      | list items => cases hv
      | null => rfl
      | bool b => rfl
      | num n => rfl
      | str s => rfl
      | obj o => rfl

/-- C1 witness: `dupInsights` repeats "likes sand" within one response,
carries an unmapped key and a non-list value; one copy is stored, a second
pass changes nothing. -/
theorem consolidate_merge_dedup_idempotent_witness :
    applyInsights (applyInsights defaultLongTerm dupInsights) dupInsights =
      applyInsights defaultLongTerm dupInsights ∧
    applyInsights defaultLongTerm dupInsights =
      [("player_preferences", ["likes sand"]), ("building_projects", []),
       ("personality_notes", []), ("achievements", [])] :=
  ⟨(consolidate_merge_dedup_idempotent defaultLongTerm dupInsights
      (by decide)).2.1,
   by decide⟩

end AIMemory
